import Mathlib

/-!
Verification of the penumbral-image reconstruction pipeline in
`src/reconstruct.py` (jkunimune15/kodi-analysis).

The development shallowly embeds the pieces of `reconstruct.py` that the
claims concern:

* module-level constants (`SPREAD`, `EXPECTED_MAGNIFICATION_ACCURACY`);
* the control flow of the forward model `simple_penumbra` (which branch is
  taken and whether a `ValueError` or the internal `assert` fires), over ℚ,
  with numpy's `linspace`/`arange` length arithmetic made explicit;
* the multi-aperture objective `simple_fit`: its feasibility rejection,
  the hexagonal aperture-lattice offset enumeration, the `include` mask,
  and the post-loop control flow (empty-include check, range regression,
  inverted-range check).  The external collaborators (the analytic
  brightness model, `mysignal.linregress`, the Gaussian error sum) are
  abstracted as function parameters, faithfully to §6 of the spec;
* the per-cut grid constructions (`xC_bins`, `xI_bins`, `xK_bins`,
  `xS_bins`) and the kernel construction loop of the main program;
* the per-cut acceptance gate (`χ2/np.sum(data_bins) >= 2.0`) and the
  data-mask construction (`data_bins`).

Real-valued geometry (`np.hypot`, the √3 of the hexagonal lattice) is
embedded over ℝ; everything whose source is exact rational/integer
arithmetic is embedded over ℚ or ℤ and is executable.
-/

/-- `SPREAD = 1.05` from reconstruct.py line 35. -/
def SPREAD : ℚ := 105 / 100

/-- `EXPECTED_MAGNIFICATION_ACCURACY = 4e-3` from reconstruct.py line 36. -/
def EXPECTED_MAGNIFICATION_ACCURACY : ℚ := 4 / 1000

/-- Python `int(q)` on a float: truncation toward zero. -/
def int_trunc (q : ℚ) : ℤ := if 0 ≤ q then ⌊q⌋ else ⌈q⌉

/-- The affine-distortion part of the regularization penalty of `simple_fit`
(reconstruct.py line 208): `(a**2 + 2*b**2 + c**2)/(4*EXPECTED_MAGNIFICATION_ACCURACY**2)`. -/
def affine_penalty (a b c : ℚ) : ℚ :=
  (a ^ 2 + 2 * b ^ 2 + c ^ 2) / (4 * EXPECTED_MAGNIFICATION_ACCURACY ^ 2)

/-- The tail of the per-cut loop of the main program (reconstruct.py lines
376-406), at the granularity of the acceptance gate: the deconvolver's
output for the cut is `none` when the cut was skipped earlier (no tracks),
and otherwise gives the returned chi-squared `χ2`, the number of pixels
included in the data mask (`np.sum(data_bins)`), and the post-processed
brightness layer.  Line 385: `if χ2/np.sum(data_bins) >= 2.0: continue`,
otherwise line 404 appends the layer to `image_layers`. -/
def processCut {C L : Type} (evalCut : C → Option (ℚ × ℕ × L))
    (image_layers : List L) (cut : C) : List L :=
  match evalCut cut with
  | none => image_layers
  | some (χ2, nmask, layer) =>
    if 2 ≤ χ2 / (nmask : ℚ) then image_layers else image_layers ++ [layer]

/-- The per-cut loop of the main program (reconstruct.py line 283): starting
from empty `image_layers`, process the cuts in order. -/
def runCuts {C L : Type} (evalCut : C → Option (ℚ × ℕ × L)) (cuts : List C) : List L :=
  cuts.foldl (processCut evalCut) []

/-- C3 counterexample: the affine term of the penalty takes a strictly
smaller value at the zero transform `a = 0, b = 0, c = 0` than at the
identity distortion `a = 1, b = 0, c = 1`, so it does not attain its
minimum at the identity, contrary to the claim. -/
theorem affine_penalty_not_minimized_at_identity :
    affine_penalty 0 0 0 < affine_penalty 1 0 1 := by
  unfold affine_penalty EXPECTED_MAGNIFICATION_ACCURACY
  norm_num

/-- C3 (amended): the affine term `(a² + 2b² + c²)/(4·EXPECTED_MAGNIFICATION_ACCURACY²)`
of the `simple_fit` penalty attains its minimum exactly at the zero
transform `a = 0, b = 0, c = 0` (not at the identity distortion), with the
scale set by the expected-magnification-accuracy constant. -/
theorem affine_penalty_minimized_at_zero (a b c : ℚ) :
    affine_penalty 0 0 0 ≤ affine_penalty a b c ∧
      (affine_penalty a b c = affine_penalty 0 0 0 ↔ a = 0 ∧ b = 0 ∧ c = 0) := by
  have hpos : (0:ℚ) < 4 * EXPECTED_MAGNIFICATION_ACCURACY ^ 2 := by
    unfold EXPECTED_MAGNIFICATION_ACCURACY; norm_num
  have hnum : (0:ℚ) ≤ a ^ 2 + 2 * b ^ 2 + c ^ 2 := by positivity
  have h0 : affine_penalty 0 0 0 = 0 := by
    unfold affine_penalty; norm_num
  constructor
  · rw [h0]
    unfold affine_penalty
    positivity
  · rw [h0]
    unfold affine_penalty
    rw [div_eq_zero_iff]
    constructor
    · rintro (h | h)
      · refine ⟨?_, ?_, ?_⟩ <;> nlinarith [sq_nonneg a, sq_nonneg b, sq_nonneg c]
      · exact absurd h (ne_of_gt hpos)
    · rintro ⟨ha, hb, hc⟩
      left
      rw [ha, hb, hc]; ring

/-- C3 witness: the amended minimality statement applied at the concrete
distortion `(a, b, c) = (3, 2, 1)`. -/
theorem affine_penalty_minimized_at_zero_witness :
    affine_penalty 0 0 0 ≤ affine_penalty 3 2 1 ∧
      (affine_penalty 3 2 1 = affine_penalty 0 0 0 ↔ (3:ℚ) = 0 ∧ (2:ℚ) = 0 ∧ (1:ℚ) = 0) :=
  affine_penalty_minimized_at_zero 3 2 1

/-- C4: for every energy cut whose returned chi-squared per included pixel
is at least `2.0`, the per-cut loop discards the result: no layer is
appended for that cut, and the final `image_layers` list is the one obtained
by simply skipping the cut and continuing with the remaining cuts. -/
theorem acceptance_gate_discards_cut {C L : Type}
    (evalCut : C → Option (ℚ × ℕ × L)) (cut : C) (χ2 : ℚ) (nmask : ℕ) (layer : L)
    (heval : evalCut cut = some (χ2, nmask, layer))
    (hgate : 2 ≤ χ2 / (nmask : ℚ)) :
    (∀ image_layers, processCut evalCut image_layers cut = image_layers) ∧
      ∀ pre post, runCuts evalCut (pre ++ cut :: post) = runCuts evalCut (pre ++ post) := by
  have hstep : ∀ image_layers, processCut evalCut image_layers cut = image_layers := by
    intro image_layers
    unfold processCut
    rw [heval]
    simp [hgate]
  refine ⟨hstep, ?_⟩
  intro pre post
  unfold runCuts
  rw [List.foldl_append, List.foldl_append, List.foldl_cons, hstep]

/-- C4 witness: with a single-cut evaluator returning `χ2 = 4` over one
included pixel, the gate fires and the cut leaves `image_layers` unchanged. -/
theorem acceptance_gate_discards_cut_witness :
    (∀ image_layers : List Unit,
        processCut (fun _ : Unit => some (4, 1, ())) image_layers () = image_layers) ∧
      ∀ pre post, runCuts (fun _ : Unit => some (4, 1, ())) (pre ++ () :: post) =
        runCuts (fun _ : Unit => some (4, 1, ())) (pre ++ post) :=
  acceptance_gate_discards_cut (fun _ => some (4, 1, ())) () 4 1 ()
    rfl (by norm_num)

/-- The kernel pixel count of the main per-cut loop (reconstruct.py lines
339-341): `kernel_size = int(2*SPREAD*r0/dxI) + 1`, incremented once more if
even. -/
def kernel_size (r0 dxI : ℚ) : ℤ :=
  let k := int_trunc (2 * SPREAD * r0 / dxI) + 1
  if k % 2 = 0 then k + 1 else k

/-- `np.hypot` as used throughout reconstruct.py. -/
noncomputable def np_hypot (a b : ℝ) : ℝ := Real.sqrt (a ^ 2 + b ^ 2)

set_option linter.unusedVariables false in
/-- One iteration of the kernel supersampling loop body (reconstruct.py
line 361): with loop offsets `dx ∈ {-dxK/3, 0, dxK/3}` and
`dy ∈ {-dyK/3, 0, dyK/3}` in scope, the accumulated term is
`simple_penumbra(np.hypot(XK+dxK, YK+dyK), 0, Q, r0, r_img, 0, 1, *e_in_bounds)`.
The radial profile `r ↦ simple_penumbra(r, 0, Q, r0, r_img, 0, 1, ...)` is
abstracted as `f` (its internal control flow is modelled separately by
`simplePenumbraOutcome`); the term is stated for arbitrary `f` so that any
instantiation of the forward model satisfies the theorems below. -/
noncomputable def penumbral_kernel_term (f : ℝ → ℝ) (XK YK dxK dyK dx dy : ℝ) : ℝ :=
  f (np_hypot (XK + dxK) (YK + dyK))

/-- One entry of the un-normalized penumbral kernel (reconstruct.py lines
358-361): the sum of `penumbral_kernel_term` over the 3×3 sub-pixel loop
offsets `dx ∈ {-dxK/3, 0, dxK/3}`, `dy ∈ {-dyK/3, 0, dyK/3}`. -/
noncomputable def penumbral_kernel_entry (f : ℝ → ℝ) (XK YK dxK dyK : ℝ) : ℝ :=
  (([-dxK / 3, 0, dxK / 3].map (fun dx =>
    (([-dyK / 3, 0, dyK / 3].map (fun dy =>
      penumbral_kernel_term f XK YK dxK dyK dx dy)).sum))).sum)

/-- C1: the kernel pixel count is odd as claimed, but the 3×3 supersampling
loop of reconstruct.py lines 359-361 never uses its loop offsets `dx`, `dy`:
every one of the nine accumulated terms is the forward model evaluated at
the single point `np.hypot(XK + dxK, YK + dyK)` (the kernel pixel shifted by
one full pixel), so the kernel entry is `9·f(np.hypot(XK+dxK, YK+dyK))`
rather than an average of nine evaluations at distinct sub-pixel offsets
`0, ±dxK/3`, `0, ±dyK/3` of the pixel center. -/
theorem kernel_supersampling_is_degenerate :
    (∀ r0 dxI : ℚ, kernel_size r0 dxI % 2 = 1) ∧
      ∀ (f : ℝ → ℝ) (XK YK dxK dyK : ℝ),
        (∀ dx dy : ℝ, penumbral_kernel_term f XK YK dxK dyK dx dy =
          penumbral_kernel_term f XK YK dxK dyK 0 0) ∧
        penumbral_kernel_entry f XK YK dxK dyK = 9 * f (np_hypot (XK + dxK) (YK + dyK)) := by
  constructor
  · intro r0 dxI
    unfold kernel_size
    set k := int_trunc (2 * SPREAD * r0 / dxI) + 1 with hk
    by_cases h : k % 2 = 0
    · rw [if_pos h]; omega
    · rw [if_neg h]; omega
  · intro f XK YK dxK dyK
    constructor
    · intro dx dy; rfl
    · unfold penumbral_kernel_entry penumbral_kernel_term
      simp [List.sum_cons]
      ring

/-- The candidate aperture-lattice index grid of both offset loops
(reconstruct.py lines 182-184 and 332-334): `for i in range(-6, 6): for j in
range(-6, 6)`, i.e. `i, j ∈ {-6, …, 5}`. -/
def offsetGrid : Finset (ℤ × ℤ) := Finset.Icc (-6) 5 ×ˢ Finset.Icc (-6) 5

/-- The vertical lattice offset `dy = i*np.sqrt(3)/2*s0` (reconstruct.py
lines 183 and 333). -/
noncomputable def dyOff (s0 : ℝ) (i : ℤ) : ℝ := (i : ℝ) * (Real.sqrt 3 / 2) * s0

/-- The horizontal lattice offset `dx = (2*j + i%2)*s0/2` (reconstruct.py
lines 185 and 335); Lean's `%` on ℤ agrees with Python's `%` for the
positive modulus 2. -/
noncomputable def dxOff (s0 : ℝ) (i j : ℤ) : ℝ := ((2 * j + i % 2 : ℤ) : ℝ) * s0 / 2

/-- The set of aperture-lattice offsets over which `simple_fit` accumulates
forward-model contributions (reconstruct.py line 186): indices of the
candidate grid passing `np.hypot(dx, dy) < VIEW_RADIUS - r_img`. -/
noncomputable def fitOffsetSet (s0 r_img view_radius : ℝ) : Set (ℤ × ℤ) :=
  {p | p ∈ offsetGrid ∧
    np_hypot (dxOff s0 p.1 p.2) (dyOff s0 p.1) < view_radius - r_img}

/-- The set of aperture-lattice offsets over which the main loop
re-histograms the cut's tracks into the combined counts array `N`
(reconstruct.py line 336): indices of the candidate grid passing
`np.hypot(dx, dy) + r_img <= VIEW_RADIUS`. -/
noncomputable def rebinOffsetSet (s0 r_img view_radius : ℝ) : Set (ℤ × ℤ) :=
  {p | p ∈ offsetGrid ∧
    np_hypot (dxOff s0 p.1 p.2) (dyOff s0 p.1) + r_img ≤ view_radius}

/-- C2 counterexample: the candidate offset grid enumerated by `simple_fit`
has 144 = 12×12 entries, not 13×13, and the index `(6, 6)` that a 13×13
neighborhood centered at the origin would contain is absent. -/
theorem offsetGrid_not_13_by_13 :
    offsetGrid.card ≠ 13 * 13 ∧ ((6 : ℤ), (6 : ℤ)) ∉ offsetGrid := by
  constructor
  · rw [offsetGrid, Finset.card_product]
    rw [Int.card_Icc]
    decide
  · rw [offsetGrid, Finset.mem_product]
    intro h
    have := h.1
    rw [Finset.mem_Icc] at this
    omega

/-- C2 (amended): the aperture-lattice offsets over which `simple_fit`
accumulates single-aperture forward-model contributions form a 12×12 grid of
candidates (`i, j ∈ {-6, …, 5}`), pruned to exactly those offsets whose
image disk of radius `r_img` lies strictly within the declared view radius
(`np.hypot(dx, dy) + r_img < VIEW_RADIUS`). -/
theorem fitOffsetSet_eq_pruned_grid (s0 r_img view_radius : ℝ) :
    offsetGrid.card = 12 * 12 ∧
      fitOffsetSet s0 r_img view_radius =
        {p : ℤ × ℤ | p ∈ offsetGrid ∧
          np_hypot (dxOff s0 p.1 p.2) (dyOff s0 p.1) + r_img < view_radius} := by
  constructor
  · rw [offsetGrid, Finset.card_product, Int.card_Icc]
    decide
  · ext p
    simp only [fitOffsetSet, Set.mem_setOf_eq]
    constructor
    · rintro ⟨hg, hlt⟩
      exact ⟨hg, by linarith⟩
    · rintro ⟨hg, hlt⟩
      exact ⟨hg, by linarith⟩

/-- C8 counterexample: with pitch `s0 = 1`, image radius `r_img = 1` and
view radius `2`, the lattice offset `(i, j) = (0, 1)` (at `dx = 1`, `dy = 0`)
is used by the combined-image re-binning loop (`hypot + r_img ≤ VIEW_RADIUS`
holds with equality) but is not enumerated by `simple_fit`
(`hypot < VIEW_RADIUS - r_img` fails), so the two offset sets differ. -/
theorem rebin_and_fit_offsets_differ :
    ((0 : ℤ), (1 : ℤ)) ∈ rebinOffsetSet 1 1 2 ∧
      ((0 : ℤ), (1 : ℤ)) ∉ fitOffsetSet 1 1 2 := by
  have hdx : dxOff 1 0 1 = 1 := by
    unfold dxOff
    norm_num
  have hdy : dyOff 1 0 = 0 := by
    unfold dyOff
    norm_num
  have hhyp : np_hypot (dxOff 1 0 1) (dyOff 1 0) = 1 := by
    rw [hdx, hdy]
    unfold np_hypot
    norm_num
  have hgrid : ((0 : ℤ), (1 : ℤ)) ∈ offsetGrid := by
    rw [offsetGrid, Finset.mem_product]
    constructor <;> · rw [Finset.mem_Icc]; omega
  constructor
  · exact ⟨hgrid, by rw [hhyp]; norm_num⟩
  · rintro ⟨-, hlt⟩
    rw [hhyp] at hlt
    norm_num at hlt

/-- C8 (amended): the offsets used to re-histogram a cut's tracks into the
combined counts array `N` are the offsets enumerated by the multi-aperture
objective together with exactly the boundary offsets whose image disk
touches the view-radius circle (`np.hypot(dx, dy) + r_img = VIEW_RADIUS`):
the re-binning loop's test is non-strict (`<=`) where the objective's test
is strict (`<`), and the two enumerations agree off that boundary. -/
theorem rebinOffsetSet_eq_fit_union_boundary (s0 r_img view_radius : ℝ) :
    rebinOffsetSet s0 r_img view_radius =
      fitOffsetSet s0 r_img view_radius ∪
        {p : ℤ × ℤ | p ∈ offsetGrid ∧
          np_hypot (dxOff s0 p.1 p.2) (dyOff s0 p.1) + r_img = view_radius} := by
  ext p
  simp only [rebinOffsetSet, fitOffsetSet, Set.mem_union, Set.mem_setOf_eq]
  constructor
  · rintro ⟨hg, hle⟩
    rcases lt_or_eq_of_le hle with hlt | heq
    · exact Or.inl ⟨hg, by linarith⟩
    · exact Or.inr ⟨hg, heq⟩
  · rintro (⟨hg, hlt⟩ | ⟨hg, heq⟩)
    · exact ⟨hg, by linarith⟩
    · exact ⟨hg, le_of_eq heq⟩

/-- Outcome of a call to `simple_penumbra` (reconstruct.py lines 142-160):
either a `ValueError` is raised (lines 146 and 158), the internal `assert`
on line 152 fails, or the function returns normally. -/
inductive PenumbraOutcome
  | valueError
  | assertError
  | ok
  deriving DecidableEq

/-- Length of `np.arange(start, stop, step)` for a positive step:
`max(0, ceil((stop - start)/step))`. -/
def arange_len (start stop step : ℚ) : ℕ :=
  if 0 < step then (⌈(stop - start) / step⌉).toNat else 0

/-- Length of the Gaussian kernel `r_kernel = np.linspace(-4*δ, 4*δ,
int(4*δ/r_max*n_bins)*2+1)` of reconstruct.py line 148 (also the length of
`n_kernel`, line 149). -/
def kernel_len (δ r_max : ℚ) (n_bins : ℕ) : ℕ :=
  (int_trunc (4 * δ / r_max * n_bins) * 2 + 1).toNat

/-- The kernel spacing `r_kernel[1] - r_kernel[0]` used as the `np.arange`
step on reconstruct.py line 150: linspace spacing `(4δ - (-4δ))/(num - 1)`. -/
def kernel_dr (δ r_max : ℚ) (n_bins : ℕ) : ℚ :=
  (4 * δ - -(4 * δ)) / ((kernel_len δ r_max n_bins : ℚ) - 1)

/-- Length of `r_point = np.arange(-4*δ, r_max + 4*δ, r_kernel[1] -
r_kernel[0])` of reconstruct.py line 150 (also the length of `n_point`,
line 151). -/
def point_len (δ r_max : ℚ) (n_bins : ℕ) : ℕ :=
  arange_len (-(4 * δ)) (r_max + 4 * δ) (kernel_dr δ r_max n_bins)

/-- The control flow of `simple_penumbra(r, δ, Q, r0, r_max, minimum,
maximum, e_min, e_max)` (reconstruct.py lines 142-160).  The branch taken,
and whether an exception is raised, depend only on `δ`, `r_max` and the
global `n_bins`; the arguments `r`, `Q`, `r0` and the energy bounds only
feed values into the returned profile (via the external
`get_analytic_brightness`, spec §6).  Line 145: `if 4*δ >= r_max: raise
ValueError`; line 147: `elif 4*δ >= r_max/n_bins:` take the convolution
branch, whose `assert len(n_point) >= len(n_kernel)` (line 152) is the only
other way the call can fail; line 154: `elif δ >= 0:` sample directly;
line 157: `else: raise ValueError`. -/
def simplePenumbraOutcome (δ r_max : ℚ) (n_bins : ℕ) : PenumbraOutcome :=
  if r_max ≤ 4 * δ then .valueError
  else if r_max / n_bins ≤ 4 * δ then
    if kernel_len δ r_max n_bins ≤ point_len δ r_max n_bins then .ok else .assertError
  else if 0 ≤ δ then .ok
  else .valueError

/-- In the convolution branch of `simple_penumbra` the blur is strictly
positive and the internal assert `len(n_point) >= len(n_kernel)` always
holds. -/
theorem penumbra_convolution_branch_safe (δ r_max : ℚ) (n_bins : ℕ) (hn : 1 ≤ n_bins)
    (h1 : 4 * δ < r_max) (h2 : r_max / n_bins ≤ 4 * δ) :
    0 < δ ∧ kernel_len δ r_max n_bins ≤ point_len δ r_max n_bins := by
  have hn0 : (0:ℚ) < (n_bins : ℚ) := by
    exact_mod_cast Nat.lt_of_lt_of_le Nat.zero_lt_one hn
  have hn1 : (1:ℚ) ≤ (n_bins : ℚ) := by exact_mod_cast hn
  have hrpos : 0 < r_max := by
    by_contra hcon
    push_neg at hcon
    have hstep : r_max ≤ r_max / n_bins := by
      rw [le_div_iff₀ hn0]
      nlinarith
    linarith
  have hδ : 0 < δ := by
    have : 0 < r_max / n_bins := div_pos hrpos hn0
    linarith
  refine ⟨hδ, ?_⟩
  have ht1 : (1:ℚ) ≤ 4 * δ / r_max * n_bins := by
    have hr : r_max ≤ 4 * δ * n_bins := by
      rw [div_le_iff₀ hn0] at h2
      linarith
    rw [div_mul_eq_mul_div, le_div_iff₀ hrpos]
    linarith
  have htge : (0:ℚ) ≤ 4 * δ / r_max * n_bins := by linarith
  have htrunc : int_trunc (4 * δ / r_max * n_bins) = ⌊4 * δ / r_max * n_bins⌋ := by
    unfold int_trunc
    rw [if_pos htge]
  have hk1 : 1 ≤ ⌊4 * δ / r_max * n_bins⌋ := by
    rw [Int.le_floor]
    exact_mod_cast ht1
  set k : ℤ := ⌊4 * δ / r_max * n_bins⌋ with hkdef
  have hklen : (kernel_len δ r_max n_bins : ℤ) = k * 2 + 1 := by
    unfold kernel_len
    rw [htrunc, Int.toNat_of_nonneg (by omega)]
  have hklenQ : (kernel_len δ r_max n_bins : ℚ) = (k:ℚ) * 2 + 1 := by
    exact_mod_cast hklen
  have hkQpos : (0:ℚ) < (k:ℚ) := by exact_mod_cast hk1
  have hdr : kernel_dr δ r_max n_bins = 4 * δ / (k:ℚ) := by
    unfold kernel_dr
    rw [hklenQ]
    rw [show ((k:ℚ) * 2 + 1 - 1) = 2 * (k:ℚ) by ring]
    rw [div_eq_div_iff (by linarith) (by linarith)]
    ring
  have hdrpos : 0 < kernel_dr δ r_max n_bins := by
    rw [hdr]
    positivity
  have hpt : (point_len δ r_max n_bins : ℤ) = ⌈(r_max + 4 * δ - -(4 * δ)) / kernel_dr δ r_max n_bins⌉ := by
    unfold point_len arange_len
    rw [if_pos hdrpos, Int.toNat_of_nonneg]
    refine Int.ceil_nonneg ?_
    exact div_nonneg (by linarith) (le_of_lt hdrpos)
  have hv : (3 * (k:ℚ)) < (r_max + 4 * δ - -(4 * δ)) / kernel_dr δ r_max n_bins := by
    rw [hdr, div_div_eq_mul_div, lt_div_iff₀ (by linarith)]
    have hkey : (k:ℚ) * (4 * δ) < (k:ℚ) * r_max := mul_lt_mul_of_pos_left h1 hkQpos
    nlinarith [hkey]
  have hceil : 3 * k + 1 ≤ ⌈(r_max + 4 * δ - -(4 * δ)) / kernel_dr δ r_max n_bins⌉ := by
    have h3k : 3 * k < ⌈(r_max + 4 * δ - -(4 * δ)) / kernel_dr δ r_max n_bins⌉ := by
      rw [Int.lt_ceil]
      exact_mod_cast hv
    omega
  have : (kernel_len δ r_max n_bins : ℤ) ≤ (point_len δ r_max n_bins : ℤ) := by
    rw [hklen, hpt]
    omega
  exact_mod_cast this

/-- C5: for every blur `δ` and field radius `r_max` (and any positive pixel
count `n_bins`), `simple_penumbra` raises `ValueError` exactly when `δ < 0`
or `4δ ≥ r_max`, and returns normally exactly when `δ ≥ 0` and `4δ < r_max`
(in particular its internal assert never fails). -/
theorem simple_penumbra_domain (δ r_max : ℚ) (n_bins : ℕ) (hn : 1 ≤ n_bins) :
    (simplePenumbraOutcome δ r_max n_bins = .valueError ↔ (δ < 0 ∨ r_max ≤ 4 * δ)) ∧
      (simplePenumbraOutcome δ r_max n_bins = .ok ↔ (0 ≤ δ ∧ 4 * δ < r_max)) := by
  unfold simplePenumbraOutcome
  split_ifs with h1 h2 h3 h4
  · exact ⟨⟨fun _ => Or.inr h1, fun _ => rfl⟩,
      ⟨fun h => by simp at h, fun h => absurd h1 (not_le.mpr h.2)⟩⟩
  · push_neg at h1
    obtain ⟨hδ, -⟩ := penumbra_convolution_branch_safe δ r_max n_bins hn h1 h2
    constructor
    · constructor
      · intro h; simp at h
      · rintro (h | h) <;> [linarith; linarith]
    · exact ⟨fun _ => ⟨le_of_lt hδ, h1⟩, fun _ => rfl⟩
  · push_neg at h1
    obtain ⟨-, hassert⟩ := penumbra_convolution_branch_safe δ r_max n_bins hn h1 h2
    exact absurd hassert h3
  · push_neg at h1
    constructor
    · constructor
      · intro h; simp at h
      · rintro (h | h) <;> [linarith; linarith]
    · exact ⟨fun _ => ⟨h4, h1⟩, fun _ => rfl⟩
  · push_neg at h1 h4
    constructor
    · exact ⟨fun _ => Or.inl h4, fun _ => rfl⟩
    · exact ⟨fun h => by simp at h, fun h => absurd h4 (not_lt.mpr h.1)⟩

/-- C5 witness: at the concrete input `δ = 1`, `r_max = 10`, `n_bins = 2`
the domain characterization applies; this blur is admissible and the call
returns normally. -/
theorem simple_penumbra_domain_witness :
    (simplePenumbraOutcome 1 10 2 = .valueError ↔ ((1:ℚ) < 0 ∨ (10:ℚ) ≤ 4 * 1)) ∧
      (simplePenumbraOutcome 1 10 2 = .ok ↔ ((0:ℚ) ≤ 1 ∧ (4:ℚ) * 1 < 10)) :=
  simple_penumbra_domain 1 10 2 (by decide)

/-- Detector-grid bin edges `xC_bins = np.linspace(-VIEW_RADIUS,
VIEW_RADIUS, n_bins+1)` (reconstruct.py line 266); `linspace(a, b, n+1)[i] =
a + (b-a)*i/n`. -/
def xC_bins (view_radius : ℚ) (n_bins : ℕ) (i : ℕ) : ℚ :=
  -view_radius + (view_radius - -view_radius) * i / n_bins

/-- Detector-grid pitch `dxC = xC_bins[1] - xC_bins[0]` (line 267). -/
def dxC (view_radius : ℚ) (n_bins : ℕ) : ℚ :=
  xC_bins view_radius n_bins 1 - xC_bins view_radius n_bins 0

/-- Combined-image-grid bin edges `xI_bins = np.linspace(x0 - r_img, x0 +
r_img, n_bins+1)` (line 327). -/
def xI_bins (x0 r_img : ℚ) (n_bins : ℕ) (i : ℕ) : ℚ :=
  (x0 - r_img) + ((x0 + r_img) - (x0 - r_img)) * i / n_bins

/-- Combined-image-grid pitch `dxI = xI_bins[1] - xI_bins[0]` (line 328). -/
def dxI (x0 r_img : ℚ) (n_bins : ℕ) : ℚ :=
  xI_bins x0 r_img n_bins 1 - xI_bins x0 r_img n_bins 0

/-- Kernel-grid bin edges `xK_bins = np.linspace(-dxI*kernel_size/2,
dxI*kernel_size/2, kernel_size+1)` (line 342); `dxIv` is the image pitch. -/
def xK_bins (dxIv : ℚ) (ks : ℕ) (i : ℕ) : ℚ :=
  -(dxIv * ks / 2) + (dxIv * ks / 2 - -(dxIv * ks / 2)) * i / ks

/-- Kernel-grid pitch `dxK = xK_bins[1] - xK_bins[0]` (line 343). -/
def dxK (dxIv : ℚ) (ks : ℕ) : ℚ :=
  xK_bins dxIv ks 1 - xK_bins dxIv ks 0

/-- Source-grid bin edges `xS_bins = xI_bins[kernel_size//2 :
-(kernel_size//2)] / M` (line 346): the image edges with `ks/2` bins trimmed
from each side, divided by the magnification. -/
def xS_bins (x0 r_img : ℚ) (n_bins ks : ℕ) (M : ℚ) (i : ℕ) : ℚ :=
  xI_bins x0 r_img n_bins (ks / 2 + i) / M

/-- Source-grid pitch `dxS = xS_bins[1] - xS_bins[0]` (line 347). -/
def dxS (x0 r_img : ℚ) (n_bins ks : ℕ) (M : ℚ) : ℚ :=
  xS_bins x0 r_img n_bins ks M 1 - xS_bins x0 r_img n_bins ks M 0

/-- Full width of the combined-image grid: last bin edge minus first. -/
def image_extent (x0 r_img : ℚ) (n_bins : ℕ) : ℚ :=
  xI_bins x0 r_img n_bins n_bins - xI_bins x0 r_img n_bins 0

/-- Full width of the kernel grid: last bin edge minus first. -/
def kernel_extent (dxIv : ℚ) (ks : ℕ) : ℚ :=
  xK_bins dxIv ks ks - xK_bins dxIv ks 0

/-- Full width of the source grid: last bin edge minus first (the sliced
`xI_bins` has `n_bins - 2*(ks/2) + 1` edges). -/
def source_extent (x0 r_img : ℚ) (n_bins ks : ℕ) (M : ℚ) : ℚ :=
  xS_bins x0 r_img n_bins ks M (n_bins - 2 * (ks / 2)) - xS_bins x0 r_img n_bins ks M 0

/-- C9 counterexample: with view radius 2, `x0 = 0`, `r_img = 1`, `n_bins =
4`, magnification `M = 2` and aperture radius `r0 = 3/5` (so that the code's
`kernel_size` is 3), the detector pitch is 1 while the image pitch is 1/2,
and the source extent is 1/4 while the image extent minus half the kernel
width is 5/4: the four grids do not share one pixel pitch, and the source
extent does not equal the image extent minus the kernel's half-width. -/
theorem grids_claim_false :
    kernel_size (3/5) (dxI 0 1 4) = 3 ∧
      ¬(dxC 2 4 = dxI 0 1 4 ∧ dxS 0 1 4 3 2 = dxI 0 1 4 ∧
        source_extent 0 1 4 3 2 =
          image_extent 0 1 4 - kernel_extent (dxI 0 1 4) 3 / 2) := by
  constructor
  · have hdxI : dxI 0 1 4 = 1 / 2 := by norm_num [dxI, xI_bins]
    rw [hdxI]
    unfold kernel_size int_trunc
    norm_num [SPREAD]
  · intro h
    have h1 := h.1
    unfold dxC dxI xC_bins xI_bins at h1
    norm_num at h1

/-- C9 (amended): the kernel grid shares the combined-image grid's pitch
`dxI`, but the detector grid's pitch is `2*VIEW_RADIUS/n_bins` (equal to
`dxI` only when the data-derived view radius equals `r_img`) and the source
grid's pitch is `dxI/M`; and, measured in image coordinates (scaled back by
`M`), the source extent equals the image extent minus `kernel_size - 1`
pixels, i.e. minus `kernel_size//2` pixels trimmed from each side. -/
theorem grids_pitch_and_extent (view_radius x0 r_img M : ℚ) (n_bins ks : ℕ)
    (hn : 1 ≤ n_bins) (hks : ks % 2 = 1) (hkn : 2 * (ks / 2) < n_bins) (hM : M ≠ 0) :
    dxK (dxI x0 r_img n_bins) ks = dxI x0 r_img n_bins ∧
      dxS x0 r_img n_bins ks M = dxI x0 r_img n_bins / M ∧
      dxC view_radius n_bins = 2 * view_radius / n_bins ∧
      M * source_extent x0 r_img n_bins ks M =
        image_extent x0 r_img n_bins - ((ks : ℚ) - 1) * dxI x0 r_img n_bins := by
  have hks1 : 1 ≤ ks := by omega
  have hksQ : ((ks : ℚ)) ≠ 0 := by
    exact_mod_cast Nat.one_le_iff_ne_zero.mp hks1
  have hnQ : ((n_bins : ℚ)) ≠ 0 := by
    exact_mod_cast Nat.one_le_iff_ne_zero.mp hn
  refine ⟨?_, ?_, ?_, ?_⟩
  · unfold dxK xK_bins dxI xI_bins
    field_simp
    ring
  · unfold dxS xS_bins dxI xI_bins
    push_cast
    field_simp
    ring
  · unfold dxC xC_bins
    field_simp
    ring
  · have hidx : ks / 2 + (n_bins - 2 * (ks / 2)) = n_bins - ks / 2 := by omega
    have hk2 : ((ks : ℚ)) = 2 * ((ks / 2 : ℕ) : ℚ) + 1 := by
      exact_mod_cast (by omega : ks = 2 * (ks / 2) + 1)
    unfold source_extent image_extent dxI xS_bins xI_bins
    rw [hidx]
    rw [Nat.cast_sub (by omega : ks / 2 ≤ n_bins)]
    rw [hk2]
    field_simp
    ring

/-- C9 witness: the amended pitch/extent relations applied at view radius 2,
`x0 = 0`, `r_img = 1`, `M = 2`, `n_bins = 4`, `kernel_size = 3`. -/
theorem grids_pitch_and_extent_witness :
    dxK (dxI 0 1 4) 3 = dxI 0 1 4 ∧
      dxS 0 1 4 3 2 = dxI 0 1 4 / 2 ∧
      dxC 2 4 = 2 * 2 / 4 ∧
      2 * source_extent 0 1 4 3 2 = image_extent 0 1 4 - ((3 : ℚ) - 1) * dxI 0 1 4 :=
  grids_pitch_and_extent 2 0 1 2 4 3 (by decide) (by decide) (by decide) (by norm_num)

/-- Index support of the all-ones source-shaped array `np.ones(XS.shape)`
(reconstruct.py line 372), as a square of side `ns`. -/
def sourceSupport (ns : ℕ) : Finset (ℤ × ℤ) :=
  Finset.Icc (0:ℤ) ((ns:ℤ) - 1) ×ˢ Finset.Icc (0:ℤ) ((ns:ℤ) - 1)

/-- The kernel "reach" `pysignal.convolve2d(np.ones(XS.shape),
penumbral_kernel, mode='full')` (reconstruct.py line 372): entry `p` of the
full 2-D convolution of the all-ones `ns`-square with the kernel `K`. -/
def reach (K : ℤ × ℤ → ℚ) (ns : ℕ) (p : ℤ × ℤ) : ℚ :=
  ∑ q in sourceSupport ns, K (p.1 - q.1, p.2 - q.2)

/-- Index support of the mode-`full` convolution output: a square of side
`ns + ks - 1` where `ks` is the kernel's side. -/
def outGrid (ns ks : ℕ) : Finset (ℤ × ℤ) :=
  Finset.Icc (0:ℤ) ((ns:ℤ) + ks - 2) ×ˢ Finset.Icc (0:ℤ) ((ns:ℤ) + ks - 2)

/-- `reach.max()` over the full-convolution output. -/
def reach_max (K : ℤ × ℤ → ℚ) (ns ks : ℕ) : ℚ :=
  (((outGrid ns ks).image (reach K ns)).max).getD 0

/-- The deconvolution data mask (reconstruct.py lines 373-374):
`data_bins = np.isfinite(N) & (reach/reach.max() > penumbra_low) &
(reach/reach.max() < penumbra_hih)` followed by
`data_bins &= ~((N == 0) & outside-convex-hull)`.  Float entries of the
combined counts array `N` are modelled as `Option ℚ` (`none` = non-finite);
the quantile thresholds `penumbra_low`/`penumbra_hih` (line 370-371,
`np.quantile` of the kernel's own normalized profile at 0.05 and 0.70) and
the Delaunay convex-hull test (external scipy) are taken as parameters. -/
def data_bins (N : ℤ × ℤ → Option ℚ) (K : ℤ × ℤ → ℚ) (ns ks : ℕ)
    (penumbra_low penumbra_hih : ℚ) (outsideHull : ℤ × ℤ → Bool) (p : ℤ × ℤ) : Bool :=
  ((N p).isSome && decide (reach K ns p / reach_max K ns ks > penumbra_low)
      && decide (reach K ns p / reach_max K ns ks < penumbra_hih))
    && !(decide (N p = some 0) && outsideHull p)

/-- C7: every pixel included in the final data mask passed to the
deconvolver has a finite value in the combined counts array `N`, and its
normalized kernel reach lies strictly above the low and strictly below the
high quantile threshold (the convex-hull crop of line 374 only removes
further pixels). -/
theorem data_bins_included_pixels (N : ℤ × ℤ → Option ℚ) (K : ℤ × ℤ → ℚ)
    (ns ks : ℕ) (penumbra_low penumbra_hih : ℚ) (outsideHull : ℤ × ℤ → Bool)
    (p : ℤ × ℤ) (h : data_bins N K ns ks penumbra_low penumbra_hih outsideHull p = true) :
    (N p).isSome = true ∧
      penumbra_low < reach K ns p / reach_max K ns ks ∧
      reach K ns p / reach_max K ns ks < penumbra_hih := by
  unfold data_bins at h
  simp only [Bool.and_eq_true, decide_eq_true_eq, gt_iff_lt] at h
  exact ⟨h.1.1.1, h.1.1.2, h.1.2⟩

/-- C7 witness: on a one-pixel source with the constant kernel 1, the pixel
`(0, 0)` is finite and included for thresholds `(0, 2)`, and the theorem
recovers the strict reach bounds there. -/
theorem data_bins_included_pixels_witness :
    ((fun _ : ℤ × ℤ => some (1:ℚ)) ((0:ℤ), (0:ℤ))).isSome = true ∧
      (0:ℚ) < reach (fun _ => 1) 1 (0, 0) / reach_max (fun _ => 1) 1 1 ∧
      reach (fun _ => 1) 1 (0, 0) / reach_max (fun _ => 1) 1 1 < 2 := by
  have hreach : ∀ p : ℤ × ℤ, reach (fun _ => (1:ℚ)) 1 p = 1 := by
    intro p
    unfold reach sourceSupport
    norm_num
  have hmax : reach_max (fun _ => (1:ℚ)) 1 1 = 1 := by
    unfold reach_max outGrid
    norm_num [hreach]
    rfl
  refine data_bins_included_pixels (fun _ => some 1) (fun _ => 1) 1 1 0 2
    (fun _ => false) (0, 0) ?_
  unfold data_bins
  rw [hmax, hreach]
  norm_num

/-- Candidate geometry parameters of `simple_fit` after argument parsing
(reconstruct.py lines 165-175): center `(x0, y0)`, source blur `δ`,
aperture charging `Q`, and affine-distortion coefficients `(a, b, c)`
(defaulting to `a = 1, b = 0, c = 1` in the call shapes that do not fit
them). -/
structure FitParams where
  x0 : ℝ
  y0 : ℝ
  δ : ℝ
  Q : ℝ
  a : ℝ
  b : ℝ
  c : ℝ

/-- The feasibility rejection of `simple_fit` (reconstruct.py line 176):
`if Q < 0 or abs(x0) > VIEW_RADIUS or abs(y0) > VIEW_RADIUS: return
float('inf')`. -/
def simpleFitReject (x0 y0 Q view_radius : ℝ) : Prop :=
  Q < 0 ∨ |x0| > view_radius ∨ |y0| > view_radius

/-- `x_eff = a*(X - x0) + b*(Y - y0)` (reconstruct.py line 178). -/
def x_eff (prm : FitParams) (X Y : ℝ) : ℝ :=
  prm.a * (X - prm.x0) + prm.b * (Y - prm.y0)

/-- `y_eff = b*(X - x0) + c*(Y - y0)` (reconstruct.py line 179). -/
def y_eff (prm : FitParams) (X Y : ℝ) : ℝ :=
  prm.b * (X - prm.x0) + prm.c * (Y - prm.y0)

/-- The `include` mask of `simple_fit` (reconstruct.py lines 181-192): a
pixel at grid coordinates `(X, Y)` is marked when some enumerated lattice
offset (an element of `fitOffsetSet`) has
`r_rel = np.hypot(x_eff - dx, y_eff - dy) <= r_img` there. -/
def includeMask (prm : FitParams) (s0 r_img view_radius X Y : ℝ) : Prop :=
  ∃ p : ℤ × ℤ, p ∈ fitOffsetSet s0 r_img view_radius ∧
    np_hypot (x_eff prm X Y - dxOff s0 p.1 p.2) (y_eff prm X Y - dyOff s0 p.1) ≤ r_img

open Classical in
/-- `np.sum(include)` (reconstruct.py line 197): the number of pixels of the
grid `P` marked by the include mask. -/
noncomputable def includeCount {Pix : Type} (P : Finset Pix) (mask : Pix → Prop) : ℕ :=
  (P.filter mask).card

/-- Result of `simple_fit` at the granularity the claims need: either some
path returned `inf`/`np.inf`, or control reached the range regression and
likelihood computation (reconstruct.py lines 199-210) and produced their
finite value. -/
inductive FitCont
  | infinite
  | regression (value : ℝ)

open Classical in
/-- Control-flow model of `simple_fit` (reconstruct.py lines 163-210).
In order: the feasibility rejection of line 176; `loopFailed` abstracts the
data-independent `return np.inf` paths inside the offset loop (a
`ValueError` from `simple_penumbra`, line 190-191, or a non-finite
accumulated `teo`, line 193-194); the empty-include check of lines 197-198;
then the range regression of lines 199-201 (`mysignal.linregress` is
external, abstracted as `regress exp = (scale, minimum)` with
`maximum = minimum + scale`) unless `(minimum, maximum)` were passed in; the
inverted-range rejection of lines 202-203; finally the Gaussian error sum
plus penalty of lines 204-210, abstracted as `errorPenalty`.  The observed
counts image `exp` enters only through `regress` and `errorPenalty`,
mirroring the fact that the source first reads `exp` on line 200. -/
noncomputable def simpleFitModel {Pix : Type} (P : Finset Pix) (X Y : Pix → ℝ)
    (prm : FitParams) (s0 r_img view_radius : ℝ) (loopFailed : Prop)
    (minmax : Option (ℝ × ℝ)) (regress : (Pix → ℝ) → ℝ × ℝ)
    (errorPenalty : (Pix → ℝ) → ℝ × ℝ → ℝ) (exp : Pix → ℝ) : FitCont :=
  if simpleFitReject prm.x0 prm.y0 prm.Q view_radius then .infinite
  else if loopFailed then .infinite
  else if includeCount P
      (fun pix => includeMask prm s0 r_img view_radius (X pix) (Y pix)) = 0 then .infinite
  else
    let mm := match minmax with
      | some mm => mm
      | none => ((regress exp).2, (regress exp).2 + (regress exp).1)
    if mm.1 > mm.2 then .infinite
    else .regression (errorPenalty exp mm)

/-- C6 counterexample: the parameter vector with center `(4/5, 4/5)`, zero
charging and identity distortion lies outside the view disk of radius 1
(`np.hypot(4/5, 4/5) > 1`), yet with `s0 = 1`, `r_img = 1/2` the objective
does not return infinity: the componentwise feasibility check `|x0| > 1 or
|y0| > 1` does not fire, the origin offset touches the pixel at the center,
and the evaluation proceeds into the regression/likelihood stage, reading
the observed image. -/
theorem feasibility_check_misses_disk_exterior :
    np_hypot (4/5) (4/5) > 1 ∧
      simpleFitModel {()} (fun _ => 4/5) (fun _ => 4/5)
        ⟨4/5, 4/5, 0, 0, 1, 0, 1⟩ 1 (1/2) 1 False (some (0, 1))
        (fun _ => (0, 0)) (fun _ _ => 37) (fun _ => 0) = .regression 37 := by
  constructor
  · unfold np_hypot
    rw [show ((4/5:ℝ) ^ 2 + (4/5) ^ 2) = 32/25 by norm_num]
    rw [show (1:ℝ) = Real.sqrt 1 by rw [Real.sqrt_one]]
    exact Real.sqrt_lt_sqrt (by norm_num) (by norm_num)
  · have hrej : ¬ simpleFitReject (4/5 : ℝ) (4/5) 0 1 := by
      unfold simpleFitReject
      push_neg
      norm_num [abs_of_nonneg]
    have hmask : includeMask ⟨4/5, 4/5, 0, 0, 1, 0, 1⟩ 1 (1/2) 1 (4/5) (4/5) := by
      refine ⟨(0, 0), ⟨?_, ?_⟩, ?_⟩
      · rw [offsetGrid, Finset.mem_product]
        constructor <;> · rw [Finset.mem_Icc]; omega
      · have hdx : dxOff 1 0 0 = 0 := by unfold dxOff; norm_num
        have hdy : dyOff 1 0 = 0 := by unfold dyOff; norm_num
        rw [hdx, hdy]
        unfold np_hypot
        rw [show ((0:ℝ) ^ 2 + 0 ^ 2) = 0 by norm_num, Real.sqrt_zero]
        norm_num
      · have hdx : dxOff 1 0 0 = 0 := by unfold dxOff; norm_num
        have hdy : dyOff 1 0 = 0 := by unfold dyOff; norm_num
        have hxe : x_eff ⟨4/5, 4/5, 0, 0, 1, 0, 1⟩ (4/5) (4/5) = 0 := by
          unfold x_eff; norm_num
        have hye : y_eff ⟨4/5, 4/5, 0, 0, 1, 0, 1⟩ (4/5) (4/5) = 0 := by
          unfold y_eff; norm_num
        rw [hdx, hdy, hxe, hye]
        unfold np_hypot
        rw [show ((0:ℝ) - 0) ^ 2 + (0 - 0) ^ 2 = 0 by norm_num, Real.sqrt_zero]
        norm_num
    have hcnt : includeCount ({()} : Finset Unit)
        (fun _ => includeMask ⟨4/5, 4/5, 0, 0, 1, 0, 1⟩ 1 (1/2) 1 (4/5) (4/5)) ≠ 0 := by
      unfold includeCount
      rw [Finset.filter_singleton, if_pos hmask]
      simp
    unfold simpleFitModel
    rw [if_neg hrej, if_neg not_false, if_neg hcnt]
    norm_num

/-- C6 (amended): the data-independent feasibility rejection of `simple_fit`
fires exactly for negative charging or a center outside the axis-aligned
square `|x0| ≤ VIEW_RADIUS`, `|y0| ≤ VIEW_RADIUS` (not the view disk); when
it fires the objective returns infinity and its value is the same for every
observed image. -/
theorem feasibility_reject_returns_inf {Pix : Type} (P : Finset Pix) (X Y : Pix → ℝ)
    (prm : FitParams) (s0 r_img view_radius : ℝ) (loopFailed : Prop)
    (minmax : Option (ℝ × ℝ)) (regress : (Pix → ℝ) → ℝ × ℝ)
    (errorPenalty : (Pix → ℝ) → ℝ × ℝ → ℝ)
    (h : prm.Q < 0 ∨ |prm.x0| > view_radius ∨ |prm.y0| > view_radius) :
    ∀ exp1 exp2 : Pix → ℝ,
      simpleFitModel P X Y prm s0 r_img view_radius loopFailed minmax regress
          errorPenalty exp1 = .infinite ∧
        simpleFitModel P X Y prm s0 r_img view_radius loopFailed minmax regress
            errorPenalty exp1 =
          simpleFitModel P X Y prm s0 r_img view_radius loopFailed minmax regress
            errorPenalty exp2 := by
  intro exp1 exp2
  have hrej : simpleFitReject prm.x0 prm.y0 prm.Q view_radius := h
  constructor
  · unfold simpleFitModel
    rw [if_pos hrej]
  · unfold simpleFitModel
    rw [if_pos hrej, if_pos hrej]

/-- C6 witness: the amended rejection applied to the concrete infeasible
parameter vector with `Q = -1` (and any two observed images). -/
theorem feasibility_reject_returns_inf_witness :
    simpleFitModel ({()} : Finset Unit) (fun _ => 0) (fun _ => 0)
        ⟨0, 0, 0, -1, 1, 0, 1⟩ 1 1 1 False none (fun _ => (0, 0)) (fun _ _ => 0)
        (fun _ => 5) = .infinite ∧
      simpleFitModel ({()} : Finset Unit) (fun _ => 0) (fun _ => 0)
          ⟨0, 0, 0, -1, 1, 0, 1⟩ 1 1 1 False none (fun _ => (0, 0)) (fun _ _ => 0)
          (fun _ => 5) =
        simpleFitModel ({()} : Finset Unit) (fun _ => 0) (fun _ => 0)
          ⟨0, 0, 0, -1, 1, 0, 1⟩ 1 1 1 False none (fun _ => (0, 0)) (fun _ _ => 0)
          (fun _ => 7) :=
  feasibility_reject_returns_inf {()} (fun _ => 0) (fun _ => 0)
    ⟨0, 0, 0, -1, 1, 0, 1⟩ 1 1 1 False none (fun _ => (0, 0)) (fun _ _ => 0)
    (Or.inl (by norm_num)) (fun _ => 5) (fun _ => 7)

/-- C10: for every observed image and every parameter vector passing the
feasibility check, if no pixel of the grid is touched by any enumerated
aperture-lattice offset (the include mask is everywhere false) then
`simple_fit` returns infinity instead of proceeding to the range regression
and likelihood computation. -/
theorem empty_include_returns_inf {Pix : Type} (P : Finset Pix) (X Y : Pix → ℝ)
    (prm : FitParams) (s0 r_img view_radius : ℝ) (loopFailed : Prop)
    (minmax : Option (ℝ × ℝ)) (regress : (Pix → ℝ) → ℝ × ℝ)
    (errorPenalty : (Pix → ℝ) → ℝ × ℝ → ℝ) (exp : Pix → ℝ)
    (hfeas : ¬ simpleFitReject prm.x0 prm.y0 prm.Q view_radius)
    (hempty : ∀ pix ∈ P, ¬ includeMask prm s0 r_img view_radius (X pix) (Y pix)) :
    simpleFitModel P X Y prm s0 r_img view_radius loopFailed minmax regress
      errorPenalty exp = .infinite := by
  unfold simpleFitModel
  rw [if_neg hfeas]
  by_cases hlf : loopFailed
  · rw [if_pos hlf]
  · rw [if_neg hlf]
    have hcnt : includeCount P
        (fun pix => includeMask prm s0 r_img view_radius (X pix) (Y pix)) = 0 := by
      classical
      unfold includeCount
      rw [Finset.card_eq_zero, Finset.filter_eq_empty_iff]
      exact hempty
    rw [if_pos hcnt]

/-- C10 witness: with view radius 0 and `r_img = 1` no lattice offset passes
the pruning test (`hypot < VIEW_RADIUS - r_img < 0`), so the include mask is
everywhere false on a one-pixel grid and the objective returns infinity. -/
theorem empty_include_returns_inf_witness :
    simpleFitModel ({()} : Finset Unit) (fun _ => 0) (fun _ => 0)
      ⟨0, 0, 0, 0, 1, 0, 1⟩ 1 1 0 False none (fun _ => (0, 0)) (fun _ _ => 0)
      (fun _ => 0) = .infinite :=
  empty_include_returns_inf {()} (fun _ => 0) (fun _ => 0)
    ⟨0, 0, 0, 0, 1, 0, 1⟩ 1 1 0 False none (fun _ => (0, 0)) (fun _ _ => 0)
    (fun _ => 0)
    (by
      unfold simpleFitReject
      push_neg
      norm_num)
    (by
      rintro pix - ⟨p, ⟨-, hlt⟩, -⟩
      have h0 : 0 ≤ np_hypot (dxOff 1 p.1 p.2) (dyOff 1 p.1) := Real.sqrt_nonneg _
      linarith)
